import Mathlib

/-!
Verification development for the reader-mode content script
(`src/readtest/content.js`).  The data model of the script and operations are
shallowly embedded: text is `List Char`, JavaScript objects produced by
`JSON.parse` are values of an inductive `J`, the chat session state and
the streaming Server-Sent-Events loop of `askChatGPT` are pure functions
over explicit state, and the DOM effects of the reader overlay are a
small state machine over the list of mounted element ids.
-/

namespace ReadAI

/-! ## Characters and small text utilities -/

/-- The newline character on which the streaming loop splits its buffer. -/
def nlChar : Char := '\n'

/-- Opening brace character (JSON object delimiter). -/
def lbrace : Char := Char.ofNat 123

/-- Closing brace character (JSON object delimiter). -/
def rbrace : Char := Char.ofNat 125

/-- Whitespace predicate used by `String.prototype.trim` and by the JSON
parser (the common whitespace characters; the exotic Unicode space
characters trimmed by JavaScript do not appear in any input considered
here). -/
def isWs (c : Char) : Bool :=
  decide (c = ' ' ∨ c = '\t' ∨ c = '\n' ∨ c = '\r' ∨ c = Char.ofNat 11 ∨ c = Char.ofNat 12)

/-- `s.trim()` on a JavaScript string: drop whitespace at both ends. -/
def trimChars (s : List Char) : List Char :=
  ((s.dropWhile isWs).reverse.dropWhile isWs).reverse

/-- `s.startsWith(p)`: `hasPref p s` is true when `p` is an initial
segment of `s`. -/
def hasPref : List Char → List Char → Bool
  | [], _ => true
  | _ :: _, [] => false
  | p :: ps, c :: cs => if p = c then hasPref ps cs else false

/-! ## JavaScript values produced by `JSON.parse`

`JSON.parse` is a host API; it is modelled here by a recursive-descent
parser over the JSON grammar fragment that can occur in the chat
completion stream (strings with the common escapes, integers, booleans,
null, arrays, objects).  Numbers are stored as rationals. -/

/-- A parsed JSON value / plain JavaScript value. -/
inductive J where
  | null
  | bool (b : Bool)
  | num (n : Rat)
  | str (s : List Char)
  | arr (xs : List J)
  | obj (kvs : List (List Char × J))

/-- Key lookup on a JavaScript object (first matching key; keys of objects
produced by `JSON.parse` and of object literals in the script are
distinct). -/
def lookupKey : List (List Char × J) → List Char → Option J
  | [], _ => none
  | (k', v) :: rest, k => if k' = k then some v else lookupKey rest k

/-- Property access `v[k]`: defined on objects, `undefined` (`none`)
otherwise. -/
def getField : J → List Char → Option J
  | .obj kvs, k => lookupKey kvs k
  | _, _ => none

/-- Index access `v[0]`: the first element of an array, a one-character
string for a string, `undefined` otherwise. -/
def index0 : J → Option J
  | .arr (x :: _) => some x
  | .str (c :: _) => some (.str [c])
  | _ => none

/-- JavaScript truthiness of a value. -/
def truthy : J → Bool
  | .null => false
  | .bool b => b
  | .num n => decide (n ≠ 0)
  | .str s => decide (s ≠ [])
  | .arr _ => true
  | .obj _ => true

/-- Truthiness of a possibly-`undefined` value. -/
def truthyOpt : Option J → Bool
  | none => false
  | some v => truthy v

/-- `x || ''` on a possibly-`undefined` value: the value when truthy,
otherwise the empty string. -/
def jsOrEmpty : Option J → J
  | none => .str []
  | some v => if truthy v then v else .str []

/-- String coercion applied when a value is concatenated onto the
accumulated assistant text (`accumulatedContent += content`).  In every
stream event of interest `content` is a string; the remaining cases
record the JavaScript coercions for totality (nested array elements are
not stringified recursively, which no input exercises). -/
def asString : J → List Char
  | .str s => s
  | .bool true => "true".data
  | .bool false => "false".data
  | .null => "null".data
  | .num n => (toString n).data
  | .arr _ => []
  | .obj _ => "[object Object]".data

/-! ### The JSON parser (model of `JSON.parse`)

A single fuel-indexed function covers the three mutually recursive
productions (value, object members, array elements), so that every
definition reduces by kernel computation. -/

/-- Skip leading JSON whitespace. -/
def skipWs : List Char → List Char
  | [] => []
  | c :: cs => if isWs c then skipWs cs else c :: cs

/-- Body of a JSON string after the opening quote; returns the decoded
characters and the input after the closing quote.  The `\uXXXX` escape is
not modelled (it occurs in no input considered here). -/
def parseStrBody : List Char → Option (List Char × List Char)
  | [] => none
  | c :: cs =>
    if c = '"' then some ([], cs)
    else if c = '\\' then
      match cs with
      | [] => none
      | e :: cs' =>
        let ec : Option Char :=
          if e = '"' then some '"'
          else if e = '\\' then some '\\'
          else if e = '/' then some '/'
          else if e = 'n' then some '\n'
          else if e = 't' then some '\t'
          else if e = 'r' then some '\r'
          else if e = 'b' then some (Char.ofNat 8)
          else if e = 'f' then some (Char.ofNat 12)
          else none
        match ec with
        | none => none
        | some ch =>
          match parseStrBody cs' with
          | some (tail, rest) => some (ch :: tail, rest)
          | none => none
    else
      match parseStrBody cs with
      | some (tail, rest) => some (c :: tail, rest)
      | none => none

/-- Decimal digit predicate. -/
def isDigit (c : Char) : Bool := decide ('0' ≤ c ∧ c ≤ '9')

/-- Longest digit run at the head of the input. -/
def takeDigits : List Char → List Char × List Char
  | [] => ([], [])
  | c :: cs =>
    if isDigit c then
      let p := takeDigits cs
      (c :: p.1, p.2)
    else ([], c :: cs)

/-- Numeric value of a digit run. -/
def digitsToNat (ds : List Char) : Nat :=
  ds.foldl (fun a c => a * 10 + (c.toNat - '0'.toNat)) 0

/-- Which production the combined parser is running. -/
inductive PMode where
  | pv   -- a JSON value
  | pm   -- object members after the opening brace (at least one member)
  | pe   -- array elements after the opening bracket (at least one element)

/-- Result of one production. -/
inductive PRes where
  | rv (v : J)
  | rm (kvs : List (List Char × J))
  | re (xs : List J)

/-- The combined recursive-descent parser; the fuel strictly decreases on
every recursive call, so the definition is structural and computes in the
kernel. -/
def parseRun : Nat → PMode → List Char → Option (PRes × List Char)
  | 0, _, _ => none
  | f + 1, PMode.pv, s =>
    match skipWs s with
    | [] => none
    | c :: cs =>
      if c = '"' then
        match parseStrBody cs with
        | some (str, rest) => some (.rv (.str str), rest)
        | none => none
      else if c = lbrace then
        match skipWs cs with
        | [] => none
        | c2 :: cs2 =>
          if c2 = rbrace then some (.rv (.obj []), cs2)
          else
            match parseRun f PMode.pm cs with
            | some (.rm kvs, rest) => some (.rv (.obj kvs), rest)
            | _ => none
      else if c = '[' then
        match skipWs cs with
        | [] => none
        | c2 :: cs2 =>
          if c2 = ']' then some (.rv (.arr []), cs2)
          else
            match parseRun f PMode.pe cs with
            | some (.re xs, rest) => some (.rv (.arr xs), rest)
            | _ => none
      else if c = 't' then
        if hasPref "rue".data cs then some (.rv (.bool true), cs.drop 3) else none
      else if c = 'f' then
        if hasPref "alse".data cs then some (.rv (.bool false), cs.drop 4) else none
      else if c = 'n' then
        if hasPref "ull".data cs then some (.rv .null, cs.drop 3) else none
      else if c = '-' then
        match takeDigits cs with
        | ([], _) => none
        | (ds, rest) => some (.rv (.num (-(digitsToNat ds : Int) : Rat)), rest)
      else if isDigit c then
        match takeDigits (c :: cs) with
        | (ds, rest) => some (.rv (.num ((digitsToNat ds : Nat) : Rat)), rest)
      else none
  | f + 1, PMode.pm, s =>
    match skipWs s with
    | [] => none
    | c :: cs =>
      if c = '"' then
        match parseStrBody cs with
        | none => none
        | some (key, rest1) =>
          match skipWs rest1 with
          | [] => none
          | c2 :: cs2 =>
            if c2 = ':' then
              match parseRun f PMode.pv cs2 with
              | some (.rv v, rest2) =>
                (match skipWs rest2 with
                 | [] => none
                 | c3 :: cs3 =>
                   if c3 = ',' then
                     match parseRun f PMode.pm cs3 with
                     | some (.rm kvs, rest3) => some (.rm ((key, v) :: kvs), rest3)
                     | _ => none
                   else if c3 = rbrace then some (.rm [(key, v)], cs3)
                   else none)
              | _ => none
            else none
      else none
  | f + 1, PMode.pe, s =>
    match parseRun f PMode.pv s with
    | some (.rv v, rest) =>
      (match skipWs rest with
       | [] => none
       | c :: cs =>
         if c = ',' then
           match parseRun f PMode.pe cs with
           | some (.re xs, rest2) => some (.re (v :: xs), rest2)
           | _ => none
         else if c = ']' then some (.re [v], cs)
         else none)
    | _ => none

/-- Fuel that amply covers every line of the streams considered here. -/
def jsonFuel : Nat := 1000

/-- Model of `JSON.parse`: parse one value and require only whitespace to
remain (a trailing remainder makes `JSON.parse` throw, modelled as
`none`). -/
def parseJson (s : List Char) : Option J :=
  match parseRun jsonFuel PMode.pv s with
  | some (.rv v, rest) => if (skipWs rest).isEmpty then some v else none
  | _ => none

/-! ## Chat messages and the streaming loop of `askChatGPT` -/

/-- One entry of `chatState.messages`. -/
structure Msg where
  role : List Char
  content : List Char
deriving DecidableEq

/-- The fixed system prompt, element 0 of the chat history. -/
def systemMessage : Msg :=
  { role := "system".data, content := "You are a helpful assistant.".data }

/-- The initial value of `chatState.messages`. -/
def chatStateInitialMessages : List Msg := [systemMessage]

/-- `chatState.messages[chatState.messages.length - 1].content = c`:
replace the content of the last message. -/
def setLastContent : List Msg → List Char → List Msg
  | [], _ => []
  | [m], c => [{ role := m.role, content := c }]
  | m :: rest, c => m :: setLastContent rest c

/-- State threaded through the streaming loop: the chat history and the
`accumulatedContent` variable. -/
structure SState where
  messages : List Msg
  accumulated : List Char
deriving DecidableEq

/-- The SSE data-line marker `"data: "`. -/
def dataMarker : List Char := "data: ".data

/-- The end-of-stream sentinel line. -/
def doneLine : List Char := "data: [DONE]".data

/-- Processing of one complete line inside the streaming loop: blank
lines and the sentinel are skipped, `data: `-prefixed lines are parsed as
JSON (a parse failure is logged and skipped), and a truthy delta content
fragment is appended to the accumulated text, which replaces the content
of the last (assistant placeholder) message. -/
def handleLine (st : SState) (line : List Char) : SState :=
  if trimChars line = [] then st
  else if line = doneLine then st
  else if hasPref dataMarker line then
    match parseJson (line.drop 6) with
    | none => st
    | some data =>
      let choices := getField data "choices".data
      let c0 := choices.bind index0
      let delta := c0.bind (fun x => getField x "delta".data)
      if truthyOpt choices && truthyOpt c0 && truthyOpt delta then
        let content := jsOrEmpty (delta.bind (fun d => getField d "content".data))
        if truthy content then
          let newAcc := st.accumulated ++ asString content
          { messages := setLastContent st.messages newAcc, accumulated := newAcc }
        else st
      else st
  else st

/-- The delta content fragment a line contributes, if any (mirrors the
branch of `handleLine` that extends the accumulated content). -/
def deltaFragment (line : List Char) : Option (List Char) :=
  if trimChars line = [] then none
  else if line = doneLine then none
  else if hasPref dataMarker line then
    match parseJson (line.drop 6) with
    | none => none
    | some data =>
      let choices := getField data "choices".data
      let c0 := choices.bind index0
      let delta := c0.bind (fun x => getField x "delta".data)
      if truthyOpt choices && truthyOpt c0 && truthyOpt delta then
        let content := jsOrEmpty (delta.bind (fun d => getField d "content".data))
        if truthy content then some (asString content) else none
      else none
  else none

/-- `buffer.split('\n')` followed by `buffer = lines.pop() || ''`:
the complete lines before each newline, and the trailing remainder kept
in the buffer. -/
def splitNL : List Char → List (List Char) × List Char
  | [] => ([], [])
  | c :: rest =>
    let p := splitNL rest
    if c = nlChar then ([] :: p.1, p.2)
    else
      match p with
      | ([], r) => ([], c :: r)
      | (l :: ls, r) => ((c :: l) :: ls, r)

/-- Prepend a carry-over remainder onto the first of a list of lines
(used to state how `splitNL` acts on concatenations). -/
def consHead (r : List Char) : List (List Char) → List (List Char)
  | [] => []
  | l :: ls => (r ++ l) :: ls

/-- How the split of a concatenation decomposes into the splits of its
parts. -/
def glue (p q : List (List Char) × List Char) : List (List Char) × List Char :=
  (p.1 ++ consHead p.2 q.1, if q.1.isEmpty then p.2 ++ q.2 else q.2)

/-- One iteration of the read loop: append the decoded chunk to the
carry-over buffer, split off the complete lines, process them in order,
and keep the remainder buffered.  (The `TextDecoder` is modelled at
character granularity.) -/
def chunkStep (p : SState × List Char) (chunk : List Char) : SState × List Char :=
  let all := p.2 ++ chunk
  let q := splitNL all
  (q.1.foldl handleLine p.1, q.2)

/-- The whole read loop over the sequence of transport chunks, starting
from an empty buffer; characters left in the buffer when the stream ends
are discarded, as in the source. -/
def runChunks (st : SState) (cs : List (List Char)) : SState × List Char :=
  cs.foldl chunkStep (st, [])

/-! ## The `askChatGPT` session function -/

/-- Observable state of one chat session: the `chatState` fields the
claims talk about plus the value of the input control and the
disabled flag (the input and button elements are assumed mounted). -/
structure SessionState where
  loading : Bool
  messages : List Msg
  inputValue : List Char
  sendDisabled : Bool
deriving DecidableEq

/-- Outcome of the `fetch` call and of the subsequent stream, supplied by
the environment: a non-success HTTP status, a rejected fetch, a stream
read to completion, or a stream that throws after some chunks. -/
inductive FetchOutcome where
  | httpError (status : Nat)
  | networkError (msg : List Char)
  | success (chunks : List (List Char))
  | streamError (chunksRead : List (List Char)) (msg : List Char)

/-- The `askChatGPT` routine: guards (empty trimmed input, send already
in progress), the user-message push and input clear, the fetch and
streaming loop, the catch block (`messages.pop()`, restore the input for
retry) and the finally block (loading cleared, button re-enabled). -/
def askChatGPT (st : SessionState) (o : FetchOutcome) : SessionState :=
  let inputText := trimChars st.inputValue
  if inputText = [] then st
  else if st.loading then st
  else
    let st1 : SessionState :=
      { loading := true
        messages := st.messages ++ [{ role := "user".data, content := inputText }]
        inputValue := []
        sendDisabled := true }
    let st2 : SessionState :=
      match o with
      | .httpError _ =>
        -- `response.ok` is false: throw before the placeholder push; the
        -- catch block pops the last message and restores the input.
        { st1 with messages := st1.messages.dropLast, inputValue := inputText }
      | .networkError _ =>
        { st1 with messages := st1.messages.dropLast, inputValue := inputText }
      | .success chunks =>
        let withPlaceholder := st1.messages ++ [{ role := "assistant".data, content := [] }]
        let fin := (runChunks { messages := withPlaceholder, accumulated := [] } chunks).1
        { st1 with messages := fin.messages }
      | .streamError chunksRead _ =>
        let withPlaceholder := st1.messages ++ [{ role := "assistant".data, content := [] }]
        let fin := (runChunks { messages := withPlaceholder, accumulated := [] } chunksRead).1
        { st1 with messages := fin.messages.dropLast, inputValue := inputText }
    { st2 with loading := false, sendDisabled := false }

/-! ## Rendering the message list -/

/-- One rendered message bubble: the class of the container, the header
text, and the body (Markdown rendering is unavailable in the model, so
`formatContent` is the identity). -/
structure RenderedMsg where
  cls : List Char
  header : List Char
  body : List Char
deriving DecidableEq

/-- `formatContent` falls back to the raw content when `marked` is not
loaded. -/
def formatContent (content : List Char) : List Char := content

/-- Build the DOM pieces of one message. -/
def renderOne (m : Msg) : RenderedMsg :=
  { cls := if m.role = "user".data then "message user".data else "message assistant".data
    header := if m.role = "user".data then "你：".data else "AI：".data
    body := if m.role = "assistant".data then formatContent m.content else m.content }

/-- `renderMessages`: iterate over the history with its index, skipping
index 0 (the system message). -/
def renderMessages (msgs : List Msg) : List RenderedMsg :=
  msgs.enum.filterMap (fun p => if p.1 = 0 then none else some (renderOne p.2))

/-- `querycontent`: on both of its branches it appends exactly one user
message whose content is built from the extracted article (the article
text is environment input, so the content is a parameter). -/
def querycontent (msgs : List Msg) (contentMessage : List Char) : List Msg :=
  msgs ++ [{ role := "user".data, content := contentMessage }]

/-- Chat histories reachable from the initial `chatState` by the two
operations that mutate it: `askChatGPT` (any input, any fetch outcome)
and `querycontent`. -/
inductive ReachableMsgs : List Msg → Prop where
  | init : ReachableMsgs chatStateInitialMessages
  | ask (loading : Bool) (inputV : List Char) (sd : Bool) (o : FetchOutcome) {msgs : List Msg} :
      ReachableMsgs msgs →
      ReachableMsgs (askChatGPT { loading := loading, messages := msgs,
                                  inputValue := inputV, sendDisabled := sd } o).messages
  | query (c : List Char) {msgs : List Msg} :
      ReachableMsgs msgs → ReachableMsgs (querycontent msgs c)

/-! ## Settings store -/

/-- A JavaScript settings object: keys with values. -/
abbrev JObj := List (List Char × J)

/-- `target[k] = v` during `Object.assign`: overwrite an existing key in
place, otherwise append the property. -/
def setKey : JObj → List Char → J → JObj
  | [], k, v => [(k, v)]
  | (k', v') :: rest, k, v =>
    if k' = k then (k, v) :: rest else (k', v') :: setKey rest k v

/-- `Object.assign(target, source)`: copy every property of the source
onto the target, in order. -/
def assign (t : JObj) (s : JObj) : JObj :=
  s.foldl (fun acc p => setKey acc p.1 p.2) t

/-- The `DEFAULT_SETTINGS` object literal. -/
def DEFAULT_SETTINGS : JObj :=
  [ ("fontSize".data, .num 18)
  , ("lineHeight".data, .num (9 / 5))
  , ("fontFamily".data,
      .str "-apple-system, BlinkMacSystemFont, \"Segoe UI\", Roboto, Helvetica, Arial, sans-serif;".data)
  , ("backgroundColor".data, .str "#ffffff".data)
  , ("textColor".data, .str "#1f2933".data)
  , ("maxWidth".data, .str "1000px".data)
  , ("darkMode".data, .bool false) ]

/-- `fetchReaderSettings`: resolve
`Object.assign(\x7b\x7d, DEFAULT_SETTINGS, data.readerSettings || \x7b\x7d)`,
where `stored` is the value found under the `readerSettings` key
(`none` when the key is absent). -/
def fetchReaderSettings (stored : Option JObj) : JObj :=
  assign (assign [] DEFAULT_SETTINGS) (stored.getD [])

/-! ## The reader overlay DOM and the extension message bridge -/

/-- `OVERLAY_ID`. -/
def OVERLAY_ID : List Char := "reader-overlay".data

/-- The page state the overlay operations act on: the ids of the mounted
elements (in document order) and whether `body` carries the
reader-active class. -/
structure Dom where
  elems : List (List Char)
  bodyActive : Bool
deriving DecidableEq

/-- `element.remove()` after `getElementById`: delete the first element
with the given id, if any. -/
def removeFirst : List (List Char) → List Char → List (List Char)
  | [], _ => []
  | e :: rest, tgt => if e = tgt then rest else e :: removeFirst rest tgt

/-- Occurrences of an id among the mounted elements. -/
def countId : List (List Char) → List Char → Nat
  | [], _ => 0
  | e :: rest, tgt => (if e = tgt then 1 else 0) + countId rest tgt

/-- `isReaderActive`: `Boolean(document.getElementById(OVERLAY_ID))`. -/
def isReaderActive (d : Dom) : Bool := decide (OVERLAY_ID ∈ d.elems)

/-- `removeReader`: remove the overlay if mounted and drop the body
class. -/
def removeReader (d : Dom) : Dom :=
  { elems := removeFirst d.elems OVERLAY_ID, bodyActive := false }

/-- The DOM effect of a successful `openReader` call: any existing
overlay is removed first, then the freshly built overlay is appended to
`body` and the body class added.  (A failing extraction throws before
any of this, leaving the DOM unchanged.) -/
def openReader (d : Dom) : Dom :=
  { elems := removeFirst d.elems OVERLAY_ID ++ [OVERLAY_ID], bodyActive := true }

/-- What `toggleReader` hands back to its caller: the active branch
returns a plain object, the open branch a promise that resolves with the
state or rejects with the error. -/
inductive ToggleRet where
  | plain (active : Bool)
  | promiseOk (active : Bool)
  | promiseErr (msg : List Char)

/-- The extraction-failure message thrown by `openReader`. -/
def extractErrMsg : List Char := "未能提取正文内容".data

/-- `toggleReader`: close synchronously when active (returning a plain
object), otherwise open; a failed open logs, removes any partial reader
and rethrows, surfacing as a rejected promise. -/
def toggleReader (d : Dom) (openFails : Bool) : Dom × ToggleRet :=
  if isReaderActive d then (removeReader d, .plain false)
  else if openFails then (removeReader d, .promiseErr extractErrMsg)
  else (openReader d, .promiseOk true)

/-- Observable outcome of one message listener invocation: a response
passed to `sendResponse`, or an exception escaping the listener (in
which case no response is ever sent). -/
inductive HOut where
  | responded (success : Bool) (active : Option Bool) (error : Option (List Char))
  | threw (msg : List Char)
deriving DecidableEq

/-- The TypeError raised when `.then` is invoked on the plain object the
active branch of `toggleReader` returns. -/
def typeErrorMsg : List Char :=
  "TypeError: toggleReader(...).then is not a function".data

/-- The `toggle-reader` branch of the message listener:
`toggleReader().then(...).catch(...)`.  When `toggleReader` returns a
plain object (active branch) the `.then` access yields `undefined` and
the call throws a TypeError before any response can be sent; the promise
branches respond as coded. -/
def handleToggleMsg (d : Dom) (openFails : Bool) : Dom × HOut :=
  match toggleReader d openFails with
  | (d', ToggleRet.plain _) => (d', HOut.threw typeErrorMsg)
  | (d', ToggleRet.promiseOk a) => (d', HOut.responded true (some a) none)
  | (d', ToggleRet.promiseErr e) => (d', HOut.responded false none (some e))

/-- The `close-reader` branch of the message listener. -/
def handleCloseMsg (d : Dom) : Dom × HOut :=
  (removeReader d, HOut.responded true (some false) none)

/-- The `get-reader-state` branch of the message listener. -/
def handleGetStateMsg (d : Dom) : Dom × HOut :=
  (d, HOut.responded true (some (isReaderActive d)) none)

/-- Page states reachable from a page that does not already contain an
element with the overlay id, under the operations that touch the
overlay: the toggle and close branches of the message bridge, a direct
`openReader` (the `querycontent` path), and a direct `removeReader`
(the toolbar close button). -/
inductive DomReachable : Dom → Prop where
  | init (d : Dom) : countId d.elems OVERLAY_ID = 0 → DomReachable d
  | toggle (openFails : Bool) {d : Dom} :
      DomReachable d → DomReachable (toggleReader d openFails).1
  | openR {d : Dom} : DomReachable d → DomReachable (openReader d)
  | close {d : Dom} : DomReachable d → DomReachable (removeReader d)

/-! ## Concrete stream data from the specification -/

/-- First chunk of the specified simulated stream. -/
def chunk1 : List Char :=
  "data: \x7b\"choices\":[\x7b\"delta\":\x7b\"content\":\"Hi\"\x7d\x7d]\x7d\n".data

/-- Second chunk of the specified simulated stream. -/
def chunk2 : List Char :=
  "data: \x7b\"choices\":[\x7b\"delta\":\x7b\"content\":\" there\"\x7d\x7d]\x7d\n".data

/-- Third chunk of the specified simulated stream (the sentinel). -/
def chunk3 : List Char := "data: [DONE]\n".data

/-- A single logical SSE line carrying the fragment `"ab"`. -/
def wLine : List Char :=
  "data: \x7b\"choices\":[\x7b\"delta\":\x7b\"content\":\"ab\"\x7d\x7d]\x7d".data

/-- A transport chunk that stops in the middle of `wLine` (inside the
`delta` key). -/
def wChunkA : List Char := "data: \x7b\"choices\":[\x7b\"del".data

/-- The rest of `wLine` plus its newline, as delivered by the next
read. -/
def wChunkB : List Char := "ta\":\x7b\"content\":\"ab\"\x7d\x7d]\x7d\n".data

/-! ## Lemmas: line splitting and the carry-over buffer -/

theorem consHead_nil (ls : List (List Char)) : consHead [] ls = ls := by
  cases ls <;> simp [consHead]

theorem splitNL_append (x y : List Char) :
    splitNL (x ++ y) = glue (splitNL x) (splitNL y) := by
  induction x with
  | nil =>
    rcases hq : splitNL y with ⟨ql, qr⟩
    cases ql <;> simp [glue, hq, splitNL, consHead]
  | cons c x' ih =>
    rcases hp : splitNL x' with ⟨pl, pr⟩
    rcases hq : splitNL y with ⟨ql, qr⟩
    rw [hp, hq] at ih
    by_cases hc : c = nlChar
    · subst hc
      simp only [List.cons_append, splitNL, hp, if_pos rfl]
      cases pl <;> cases ql <;> simp [ih, glue, consHead]
    · simp only [List.cons_append, splitNL, hp, if_neg hc]
      cases pl <;> cases ql <;> simp [ih, glue, consHead]

theorem splitNL_noNL (s : List Char) (h : nlChar ∉ s) : splitNL s = ([], s) := by
  induction s with
  | nil => rfl
  | cons c rest ih =>
    have hc : ¬ c = nlChar := by
      intro e
      exact h (e ▸ List.mem_cons_self c rest)
    have hr : nlChar ∉ rest := fun m => h (List.mem_cons_of_mem _ m)
    simp [splitNL, ih hr, hc]

theorem splitNL_snd_noNL (s : List Char) : nlChar ∉ (splitNL s).2 := by
  induction s with
  | nil => simp [splitNL]
  | cons c rest ih =>
    by_cases hc : c = nlChar
    · simpa [splitNL, hc] using ih
    · rcases hp : splitNL rest with ⟨pl, pr⟩
      rw [hp] at ih
      cases pl with
      | nil =>
        simp only [splitNL, hp, if_neg hc]
        simp only [List.mem_cons, not_or]
        exact ⟨fun e => hc e.symm, ih⟩
      | cons l ls => simpa [splitNL, hp, hc] using ih

theorem splitNL_joinLines (lines : List (List Char)) (h : ∀ l ∈ lines, nlChar ∉ l) :
    splitNL ((lines.map (fun l => l ++ [nlChar])).flatten) = (lines, []) := by
  induction lines with
  | nil => rfl
  | cons l rest ih =>
    have hl : nlChar ∉ l := h l (List.mem_cons_self _ _)
    have hr := ih (fun x hx => h x (List.mem_cons_of_mem _ hx))
    have h1 : splitNL (l ++ [nlChar]) = ([l], []) := by
      rw [splitNL_append, splitNL_noNL l hl]
      simp [splitNL, glue, consHead]
    rw [List.map_cons, List.flatten_cons, splitNL_append, h1, hr]
    rcases rest with _ | ⟨r0, rs⟩ <;> simp [glue, consHead]

theorem chunkStep_append (p : SState × List Char) (a b : List Char) :
    chunkStep p (a ++ b) = chunkStep (chunkStep p a) b := by
  rcases p with ⟨st, buf⟩
  rcases h1 : splitNL (buf ++ a) with ⟨l1, r1⟩
  rcases hq : splitNL b with ⟨ql, qr⟩
  have h2 : splitNL (buf ++ a ++ b) = glue (l1, r1) (ql, qr) := by
    rw [splitNL_append, h1, hq]
  have hr1 : nlChar ∉ r1 := by
    have h3 := splitNL_snd_noNL (buf ++ a)
    rw [h1] at h3
    exact h3
  have h3 : splitNL (r1 ++ b) = glue (([], r1) : List (List Char) × List Char) (ql, qr) := by
    rw [splitNL_append, splitNL_noNL r1 hr1, hq]
  simp only [chunkStep, ← List.append_assoc, h2, h1, h3, glue, List.foldl_append]
  simp [consHead_nil]

theorem foldl_chunkStep_join (cs : List (List Char)) (st : SState) (buf : List Char)
    (h : nlChar ∉ buf) :
    cs.foldl chunkStep (st, buf) = chunkStep (st, buf) cs.flatten := by
  induction cs generalizing st buf with
  | nil =>
    simp only [List.foldl_nil, List.flatten_nil, chunkStep, List.append_nil,
      splitNL_noNL buf h, List.foldl_nil]
  | cons c cs' ih =>
    rcases e : chunkStep (st, buf) c with ⟨st1, r1⟩
    have hr1 : nlChar ∉ r1 := by
      have h2 : (chunkStep (st, buf) c).2 = r1 := congrArg Prod.snd e
      have h3 : (chunkStep (st, buf) c).2 = (splitNL (buf ++ c)).2 := rfl
      rw [h3] at h2
      rw [← h2]
      exact splitNL_snd_noNL (buf ++ c)
    rw [List.foldl_cons, e, ih st1 r1 hr1, List.flatten_cons, chunkStep_append, e]

/-! ## Lemmas: replacing the content of the last message -/

theorem setLast_cons (x : Msg) (t : List Msg) (c : List Char) :
    ∃ y ys, setLastContent (x :: t) c = y :: ys := by
  cases t <;> simp [setLastContent]

theorem setLast_setLast (ms : List Msg) (a b : List Char) :
    setLastContent (setLastContent ms a) b = setLastContent ms b := by
  induction ms with
  | nil => rfl
  | cons m rest ih =>
    cases rest with
    | nil => rfl
    | cons r rs =>
      obtain ⟨y, ys, e⟩ := setLast_cons r rs a
      rw [e] at ih
      simp only [setLastContent, e]
      rw [ih]

theorem setLast_getLast (ms : List Msg) (m : Msg) (h : ms.getLast? = some m) :
    setLastContent ms m.content = ms := by
  induction ms with
  | nil => cases h
  | cons x rest ih =>
    cases rest with
    | nil =>
      have hx : x = m := by simpa using h
      subst hx
      rfl
    | cons r rs =>
      have h' : (r :: rs).getLast? = some m := by
        rw [← h]
        simp [List.getLast?_cons_cons]
      simp [setLastContent, ih h']

theorem setLast_dropLast (ms : List Msg) (c : List Char) :
    (setLastContent ms c).dropLast = ms.dropLast := by
  induction ms with
  | nil => rfl
  | cons m rest ih =>
    cases rest with
    | nil => rfl
    | cons r rs =>
      have hne : setLastContent (r :: rs) c ≠ [] := by
        cases rs <;> simp [setLastContent]
      simp only [setLastContent]
      rw [List.dropLast_cons_of_ne_nil hne, List.dropLast_cons_of_ne_nil (by simp)]
      rw [ih]

theorem setLast_head_of_ne (x : Msg) (t : List Msg) (c : List Char) (h : t ≠ []) :
    (setLastContent (x :: t) c).head? = some x := by
  cases t with
  | nil => exact absurd rfl h
  | cons y ys => simp [setLastContent]

/-! ## Lemmas: line handling and delta fragments -/

theorem handleLine_frag (st : SState) (line : List Char) :
    handleLine st line =
      match deltaFragment line with
      | none => st
      | some c => { messages := setLastContent st.messages (st.accumulated ++ c),
                    accumulated := st.accumulated ++ c } := by
  by_cases h1 : trimChars line = []
  · simp [handleLine, deltaFragment, h1]
  · by_cases h2 : line = doneLine
    · simp [handleLine, deltaFragment, h1, h2]
    · by_cases h3 : hasPref dataMarker line = true
      · cases hp : parseJson (line.drop 6) with
        | none => simp [handleLine, deltaFragment, h1, h2, h3, hp]
        | some data =>
          by_cases h4 : (truthyOpt (getField data "choices".data)
              && truthyOpt ((getField data "choices".data).bind index0)
              && truthyOpt (((getField data "choices".data).bind index0).bind
                   (fun x => getField x "delta".data))) = true
          · by_cases h5 : truthy (jsOrEmpty ((((getField data "choices".data).bind
                index0).bind (fun x => getField x "delta".data)).bind
                  (fun d => getField d "content".data))) = true
            · simp [handleLine, deltaFragment, h1, h2, h3, hp, h4, h5]
            · simp [handleLine, deltaFragment, h1, h2, h3, hp, h4, h5]
          · simp [handleLine, deltaFragment, h1, h2, h3, hp, h4]
      · simp [handleLine, deltaFragment, h1, h2, h3]

theorem handleLine_of_noFrag (st : SState) (line : List Char)
    (h : deltaFragment line = none) : handleLine st line = st := by
  rw [handleLine_frag, h]

theorem deltaFragment_of_parseNone (line : List Char)
    (h : parseJson (line.drop 6) = none) : deltaFragment line = none := by
  by_cases h1 : trimChars line = []
  · simp [deltaFragment, h1]
  · by_cases h2 : line = doneLine
    · simp [deltaFragment, h1, h2]
    · by_cases h3 : hasPref dataMarker line = true
      · simp [deltaFragment, h1, h2, h3, h]
      · simp [deltaFragment, h1, h2, h3]

theorem foldl_handleLine_frags (lines : List (List Char)) (ms : List Msg) (a : List Char) :
    lines.foldl handleLine { messages := setLastContent ms a, accumulated := a } =
      { messages := setLastContent ms (a ++ (lines.filterMap deltaFragment).flatten),
        accumulated := a ++ (lines.filterMap deltaFragment).flatten } := by
  induction lines generalizing a with
  | nil => simp
  | cons l rest ih =>
    rw [List.foldl_cons, handleLine_frag]
    cases hf : deltaFragment l with
    | none =>
      simp only [hf]
      rw [ih a]
      simp [List.filterMap_cons, hf]
    | some c =>
      simp only [hf]
      rw [setLast_setLast]
      rw [ih (a ++ c)]
      simp [List.filterMap_cons, hf, List.append_assoc]

/-! ## Lemmas: shape of the history across the streaming loop -/

theorem shape_trans {ms1 ms2 ms3 : List Msg}
    (h12 : ms2 = ms1 ∨ ∃ c, ms2 = setLastContent ms1 c)
    (h23 : ms3 = ms2 ∨ ∃ c, ms3 = setLastContent ms2 c) :
    ms3 = ms1 ∨ ∃ c, ms3 = setLastContent ms1 c := by
  rcases h12 with h | ⟨c, h⟩ <;> rcases h23 with h' | ⟨c', h'⟩
  · left; rw [h', h]
  · right; exact ⟨c', by rw [h', h]⟩
  · right; exact ⟨c, by rw [h', h]⟩
  · right; exact ⟨c', by rw [h', h, setLast_setLast]⟩

theorem handleLine_shape (st : SState) (l : List Char) :
    (handleLine st l).messages = st.messages ∨
      ∃ c, (handleLine st l).messages = setLastContent st.messages c := by
  rw [handleLine_frag]
  cases hf : deltaFragment l with
  | none => left; rfl
  | some c => right; exact ⟨st.accumulated ++ c, rfl⟩

theorem foldl_handleLine_shape (lines : List (List Char)) (st : SState) :
    (lines.foldl handleLine st).messages = st.messages ∨
      ∃ c, (lines.foldl handleLine st).messages = setLastContent st.messages c := by
  induction lines generalizing st with
  | nil => left; rfl
  | cons l rest ih =>
    rw [List.foldl_cons]
    exact shape_trans (handleLine_shape st l) (ih (handleLine st l))

theorem runChunks_shape (cs : List (List Char)) (st : SState) (buf : List Char) :
    ((cs.foldl chunkStep (st, buf)).1).messages = st.messages ∨
      ∃ c, ((cs.foldl chunkStep (st, buf)).1).messages = setLastContent st.messages c := by
  induction cs generalizing st buf with
  | nil => left; rfl
  | cons ch cs' ih =>
    rw [List.foldl_cons]
    rcases e : chunkStep (st, buf) ch with ⟨st1, r1⟩
    have h1 : st1.messages = st.messages ∨
        ∃ c, st1.messages = setLastContent st.messages c := by
      have hfst : (splitNL (buf ++ ch)).1.foldl handleLine st = st1 := congrArg Prod.fst e
      rw [← hfst]
      exact foldl_handleLine_shape (splitNL (buf ++ ch)).1 st
    exact shape_trans h1 (ih st1 r1)

/-! ## Lemmas: rendering skips exactly the system message -/

theorem renderFilter (rest : List Msg) : ∀ n, n ≠ 0 →
    (List.enumFrom n rest).filterMap
        (fun p => if p.1 = 0 then none else some (renderOne p.2))
      = rest.map renderOne := by
  induction rest with
  | nil => intro n _; rfl
  | cons m rest ih =>
    intro n hn
    simp only [List.enumFrom, List.filterMap_cons, hn, if_neg hn]
    rw [ih (n + 1) (Nat.succ_ne_zero n)]
    rfl

theorem renderMessages_eq (msgs : List Msg) :
    renderMessages msgs = (msgs.drop 1).map renderOne := by
  cases msgs with
  | nil => rfl
  | cons m rest =>
    simp only [renderMessages, List.enum, List.enumFrom, List.filterMap_cons,
      if_pos rfl, List.drop_one, List.tail_cons]
    exact renderFilter rest 1 one_ne_zero

/-! ## Lemmas: the system prompt survives every operation -/

theorem head?_append_left (xs ys : List Msg) (h : xs ≠ []) :
    (xs ++ ys).head? = xs.head? := by
  cases xs with
  | nil => exact absurd rfl h
  | cons x t => rfl

theorem eq_cons_of_head? {msgs : List Msg} {m : Msg} (h : msgs.head? = some m) :
    ∃ t, msgs = m :: t := by
  cases msgs with
  | nil => cases h
  | cons x t =>
    have hx : x = m := by simpa using h
    exact ⟨t, by rw [hx]⟩

theorem reachableHead {msgs : List Msg} (h : ReachableMsgs msgs) :
    msgs.head? = some systemMessage := by
  induction h with
  | init => rfl
  | @query c msgs h ih =>
    have hne : msgs ≠ [] := by intro e; rw [e] at ih; cases ih
    rw [querycontent, head?_append_left _ _ hne]
    exact ih
  | @ask loading inputV sd o msgs h ih =>
    have hne : msgs ≠ [] := by intro e; rw [e] at ih; cases ih
    obtain ⟨t, ht⟩ := eq_cons_of_head? ih
    by_cases hE : trimChars inputV = []
    · simpa [askChatGPT, hE] using ih
    · by_cases hL : loading = true
      · simpa [askChatGPT, hE, hL] using ih
      · cases o with
        | httpError status =>
          simpa [askChatGPT, hE, hL, List.dropLast_concat] using ih
        | networkError m =>
          simpa [askChatGPT, hE, hL, List.dropLast_concat] using ih
        | success chunks =>
          simp only [askChatGPT, hE, hL, if_neg hE, if_neg hL, Bool.false_eq_true,
            ite_false, runChunks]
          rcases runChunks_shape chunks
              { messages := msgs ++ [{ role := "user".data, content := trimChars inputV }]
                              ++ [{ role := "assistant".data, content := [] }],
                accumulated := [] } [] with hs | ⟨c, hs⟩
          · rw [hs, ht]
            simp [head?_append_left]
          · rw [hs, ht]
            rw [List.cons_append, List.cons_append]
            rw [setLast_head_of_ne _ _ _ (by simp)]
        | streamError chunksRead m =>
          simp only [askChatGPT, hE, hL, if_neg hE, if_neg hL, Bool.false_eq_true,
            ite_false, runChunks]
          rcases runChunks_shape chunksRead
              { messages := msgs ++ [{ role := "user".data, content := trimChars inputV }]
                              ++ [{ role := "assistant".data, content := [] }],
                accumulated := [] } [] with hs | ⟨c, hs⟩
          · rw [hs, List.dropLast_concat, head?_append_left _ _ hne]
            exact ih
          · rw [hs, setLast_dropLast, List.dropLast_concat, head?_append_left _ _ hne]
            exact ih

/-! ## Lemmas: `Object.assign` and settings merging -/

theorem lookup_setKey (o : JObj) (k k' : List Char) (v : J) :
    lookupKey (setKey o k v) k' = if k = k' then some v else lookupKey o k' := by
  induction o with
  | nil => simp [setKey, lookupKey]
  | cons p rest ih =>
    rcases p with ⟨k1, v1⟩
    by_cases h1 : k1 = k
    · subst h1
      by_cases h2 : k1 = k' <;> simp [setKey, lookupKey, h2]
    · by_cases h2 : k1 = k'
      · have h3 : ¬ k = k' := fun e => h1 (h2.trans e.symm)
        have h4 : ¬ k' = k := fun e => h3 e.symm
        simp [setKey, h1, lookupKey, h2, h3, h4]
      · simp [setKey, h1, lookupKey, h2, ih]

theorem lookup_none_of_not_mem (o : JObj) (k : List Char)
    (h : k ∉ o.map Prod.fst) : lookupKey o k = none := by
  induction o with
  | nil => rfl
  | cons p rest ih =>
    rcases p with ⟨k1, v1⟩
    simp only [List.map_cons, List.mem_cons, not_or] at h
    have h1 : ¬ k1 = k := fun e => h.1 e.symm
    simp [lookupKey, h1, ih h.2]

theorem lookup_assign (t s : JObj) (k : List Char) (h : (s.map Prod.fst).Nodup) :
    lookupKey (assign t s) k =
      match lookupKey s k with
      | some v => some v
      | none => lookupKey t k := by
  induction s generalizing t with
  | nil => rfl
  | cons p s' ih =>
    rcases p with ⟨k1, v1⟩
    simp only [List.map_cons, List.nodup_cons] at h
    rw [show assign t ((k1, v1) :: s') = assign (setKey t k1 v1) s' from rfl]
    rw [ih (setKey t k1 v1) h.2]
    by_cases h2 : k1 = k
    · subst h2
      have h3 : lookupKey s' k1 = none := lookup_none_of_not_mem s' k1 h.1
      simp [h3, lookupKey, lookup_setKey]
    · cases hs : lookupKey s' k <;> simp [lookupKey, h2, lookup_setKey, hs]

/-! ## Lemmas: overlay occurrence counting -/

theorem countId_removeFirst (l : List (List Char)) (t : List Char) :
    countId (removeFirst l t) t = countId l t - 1 := by
  induction l with
  | nil => rfl
  | cons e rest ih =>
    by_cases h : e = t
    · simp [removeFirst, countId, h]
    · simp [removeFirst, countId, h, ih]

theorem countId_append (l1 l2 : List (List Char)) (t : List Char) :
    countId (l1 ++ l2) t = countId l1 t + countId l2 t := by
  induction l1 with
  | nil => simp [countId]
  | cons e rest ih => simp [countId, ih]; omega

theorem not_mem_of_countId_zero (l : List (List Char)) (t : List Char)
    (h : countId l t = 0) : t ∉ l := by
  induction l with
  | nil => simp
  | cons e rest ih =>
    simp only [countId] at h
    by_cases he : e = t
    · rw [if_pos he] at h; omega
    · rw [if_neg he] at h
      simp only [List.mem_cons, not_or]
      exact ⟨fun e2 => he e2.symm, ih (by omega)⟩

theorem removeFirst_not_mem (l : List (List Char)) (t : List Char) (h : t ∉ l) :
    removeFirst l t = l := by
  induction l with
  | nil => rfl
  | cons e rest ih =>
    simp only [List.mem_cons, not_or] at h
    have h1 : ¬ e = t := fun e2 => h.1 e2.symm
    simp [removeFirst, h1, ih h.2]

theorem domCountInv {d : Dom} (h : DomReachable d) :
    countId d.elems OVERLAY_ID ≤ 1 := by
  induction h with
  | init d hz => omega
  | toggle openFails h ih =>
    rename_i d
    unfold toggleReader
    by_cases ha : isReaderActive d = true
    · simp only [ha, if_pos rfl]
      simp [removeReader, countId_removeFirst]
      omega
    · by_cases hb : openFails = true
      · simp [ha, hb, removeReader, countId_removeFirst]
        omega
      · simp [ha, hb, openReader, countId_append, countId, countId_removeFirst]
        omega
  | openR h ih =>
    simp [openReader, countId_append, countId, countId_removeFirst]
    omega
  | close h ih =>
    simp [removeReader, countId_removeFirst]
    omega

/-! ## The claims -/

/-- C1: the claim states that after an `askChatGPT` call with non-empty
input, no send in progress and a non-success HTTP status, the message
list has grown by exactly one (the user message) and the input is
restored.  The code instead pops the freshly appended user message in its
catch block (there is no assistant placeholder yet on this path), so the
message list is unchanged: evaluating the embedded `askChatGPT` on such
an input returns the state exactly as it was before the call (input
restored, but the user message gone). -/
theorem claim_C1_code_eval :
    askChatGPT { loading := false, messages := chatStateInitialMessages,
                 inputValue := "hello".data, sendDisabled := false }
        (.httpError 500)
      = { loading := false, messages := chatStateInitialMessages,
          inputValue := "hello".data, sendDisabled := false } := by decide

/-- C2: the streaming loop reassembles complete lines through the
carry-over buffer — for every sequence of newline-terminated lines and
every way of cutting the transport into chunks (including mid-line cuts),
the final assistant message content is the concatenation, in arrival
order, of the delta content fragments of the lines; and on the three
chunks given in the specification the final assistant message content is
`"Hi there"`. -/
theorem claim_C2 :
    (∀ (lines cs : List (List Char)) (ms : List Msg),
        (∀ l ∈ lines, nlChar ∉ l) →
        cs.flatten = (lines.map (fun l => l ++ [nlChar])).flatten →
        ms.getLast?.map Msg.content = some [] →
        (runChunks { messages := ms, accumulated := [] } cs).1.messages
          = setLastContent ms ((lines.filterMap deltaFragment).flatten))
    ∧ askChatGPT { loading := false, messages := chatStateInitialMessages,
                   inputValue := "Hi".data, sendDisabled := false }
        (.success [chunk1, chunk2, chunk3])
      = { loading := false,
          messages := chatStateInitialMessages
            ++ [{ role := "user".data, content := "Hi".data },
                { role := "assistant".data, content := "Hi there".data }],
          inputValue := [], sendDisabled := false } := by
  constructor
  · intro lines cs ms hnl hjoin hlast
    have hm : ∃ m, ms.getLast? = some m ∧ m.content = [] := by
      cases hg : ms.getLast? with
      | none => rw [hg] at hlast; cases hlast
      | some m => rw [hg] at hlast; exact ⟨m, rfl, by simpa using hlast⟩
    obtain ⟨m, hg, hc⟩ := hm
    have hself : setLastContent ms [] = ms := by
      have h2 := setLast_getLast ms m hg
      rw [hc] at h2
      exact h2
    rw [runChunks, foldl_chunkStep_join cs _ [] (by simp)]
    simp only [chunkStep, List.nil_append, hjoin, splitNL_joinLines lines hnl]
    rw [← hself, foldl_handleLine_frags]
    simp [setLast_setLast]
  · decide

/-- C2 witness: a one-line stream carrying the fragment `"ab"`, cut by
the transport in the middle of the line, satisfies the hypotheses and
yields the fragment as the assistant content. -/
theorem claim_C2_witness :
    (∀ l ∈ [wLine], nlChar ∉ l)
    ∧ [wChunkA, wChunkB].flatten = ([wLine].map (fun l => l ++ [nlChar])).flatten
    ∧ ([{ role := "assistant".data, content := [] }] : List Msg).getLast?.map Msg.content
        = some []
    ∧ (runChunks { messages := [{ role := "assistant".data, content := [] }],
                   accumulated := [] } [wChunkA, wChunkB]).1.messages
        = setLastContent [{ role := "assistant".data, content := [] }]
            (([wLine].filterMap deltaFragment).flatten) :=
  ⟨by decide, by decide, by decide,
    claim_C2.1 [wLine] [wChunkA, wChunkB] _ (by decide) (by decide) (by decide)⟩

/-- C3: at every reachable chat history — initially and after any
`askChatGPT` or `querycontent` step — element 0 is the system prompt
(never removed), and `renderMessages` renders exactly the elements from
index 1 on, never element 0. -/
theorem claim_C3 : ∀ msgs, ReachableMsgs msgs →
    msgs.head? = some systemMessage
    ∧ renderMessages msgs = (msgs.drop 1).map renderOne :=
  fun msgs h => ⟨reachableHead h, renderMessages_eq msgs⟩

/-- C3 witness: the initial history. -/
theorem claim_C3_witness :
    chatStateInitialMessages.head? = some systemMessage
    ∧ renderMessages chatStateInitialMessages
        = (chatStateInitialMessages.drop 1).map renderOne :=
  claim_C3 chatStateInitialMessages ReachableMsgs.init

/-- C4: a data-marker line whose payload is invalid JSON is skipped
(caught and logged) without aborting the stream: folding the line handler
over any surrounding lines gives the same state as if the malformed line
were absent, so every subsequent valid line is still processed. -/
theorem claim_C4 : ∀ (st : SState) (bad : List Char) (pre post : List (List Char)),
    hasPref dataMarker bad = true →
    (parseJson (bad.drop 6)).isNone = true →
    (pre ++ bad :: post).foldl handleLine st = (pre ++ post).foldl handleLine st := by
  intro st bad pre post _ hnone
  have hn : parseJson (bad.drop 6) = none := Option.isNone_iff_eq_none.mp hnone
  have hskip : handleLine ((pre.foldl handleLine st)) bad = pre.foldl handleLine st :=
    handleLine_of_noFrag _ bad (deltaFragment_of_parseNone bad hn)
  rw [List.foldl_append, List.foldl_cons, hskip, ← List.foldl_append]

/-- C4 witness: an invalid-JSON line between two valid delta lines is
skipped while both neighbours are processed. -/
theorem claim_C4_witness :
    hasPref dataMarker "data: \x7binvalid".data = true
    ∧ (parseJson (("data: \x7binvalid".data).drop 6)).isNone = true
    ∧ ([chunk1.dropLast] ++ "data: \x7binvalid".data :: [chunk2.dropLast]).foldl
          handleLine
          { messages := [{ role := "assistant".data, content := [] }], accumulated := [] }
        = ([chunk1.dropLast] ++ [chunk2.dropLast]).foldl handleLine
          { messages := [{ role := "assistant".data, content := [] }], accumulated := [] } :=
  ⟨by decide, by decide,
    claim_C4 _ ("data: \x7binvalid".data) [chunk1.dropLast] [chunk2.dropLast]
      (by decide) (by decide)⟩

/-- C5: an `askChatGPT` invocation while `chatState.loading` is true is a
no-op: the session state (messages, loading flag, input value, button) is
returned unchanged, whatever the environment would have answered. -/
theorem claim_C5 : ∀ (st : SessionState) (o : FetchOutcome),
    st.loading = true → askChatGPT st o = st := by
  intro st o h
  by_cases hE : trimChars st.inputValue = []
  · simp [askChatGPT, hE]
  · simp [askChatGPT, hE, h]

/-- C5 witness: a loading session with non-empty input is left untouched
by a would-be successful send. -/
theorem claim_C5_witness :
    ({ loading := true, messages := chatStateInitialMessages,
       inputValue := "hello".data, sendDisabled := true } : SessionState).loading = true
    ∧ askChatGPT { loading := true, messages := chatStateInitialMessages,
                   inputValue := "hello".data, sendDisabled := true }
        (.success [chunk1])
      = { loading := true, messages := chatStateInitialMessages,
          inputValue := "hello".data, sendDisabled := true } :=
  ⟨rfl, claim_C5 _ _ rfl⟩

/-- C6: `fetchReaderSettings` resolves, for every stored partial settings
object (including an absent key, `stored = none`), to an object that is
complete — every key of `DEFAULT_SETTINGS` is present — with the stored
value when the key was stored and the default value otherwise. -/
theorem claim_C6 : ∀ (stored : Option JObj),
    ((stored.getD []).map Prod.fst).Nodup →
    ∀ (k : List Char) (v : J), lookupKey DEFAULT_SETTINGS k = some v →
    lookupKey (fetchReaderSettings stored) k
      = some ((lookupKey (stored.getD []) k).getD v) := by
  intro stored hnd k v hv
  have hD : (DEFAULT_SETTINGS.map Prod.fst).Nodup := by decide
  rw [fetchReaderSettings, lookup_assign _ _ _ hnd, lookup_assign _ _ _ hD, hv]
  cases h : lookupKey (stored.getD []) k <;> simp [h]

/-- C6 witness: a stored object containing only `darkMode := true`
overrides that default while the untouched `fontSize` keeps its
default. -/
theorem claim_C6_witness :
    (((some [("darkMode".data, J.bool true)] : Option JObj).getD []).map Prod.fst).Nodup
    ∧ lookupKey DEFAULT_SETTINGS "darkMode".data = some (J.bool false)
    ∧ lookupKey (fetchReaderSettings (some [("darkMode".data, J.bool true)]))
        "darkMode".data
      = some ((lookupKey ((some [("darkMode".data, J.bool true)] : Option JObj).getD [])
          "darkMode".data).getD (J.bool false)) :=
  ⟨by decide, rfl,
    claim_C6 (some [("darkMode".data, J.bool true)]) (by decide)
      "darkMode".data (J.bool false) rfl⟩

/-- C7: every `askChatGPT` invocation that passes the empty-input and
loading guards ends with `chatState.loading = false` and the send button
re-enabled, on the success, HTTP-failure and network/stream-error paths
alike (the `finally` block runs on every path). -/
theorem claim_C7 : ∀ (st : SessionState) (o : FetchOutcome),
    trimChars st.inputValue ≠ [] → st.loading = false →
    (askChatGPT st o).loading = false ∧ (askChatGPT st o).sendDisabled = false := by
  intro st o h1 h2
  cases o <;> simp [askChatGPT, h1, h2]

/-- C7 witness: the HTTP-failure path still ends idle with the button
enabled. -/
theorem claim_C7_witness :
    trimChars ("hello".data) ≠ []
    ∧ (askChatGPT { loading := false, messages := chatStateInitialMessages,
                    inputValue := "hello".data, sendDisabled := false }
        (.httpError 500)).loading = false
    ∧ (askChatGPT { loading := false, messages := chatStateInitialMessages,
                    inputValue := "hello".data, sendDisabled := false }
        (.httpError 500)).sendDisabled = false :=
  ⟨by decide,
    (claim_C7 { loading := false, messages := chatStateInitialMessages,
                inputValue := "hello".data, sendDisabled := false }
      (.httpError 500) (by decide) rfl).1,
    (claim_C7 { loading := false, messages := chatStateInitialMessages,
                inputValue := "hello".data, sendDisabled := false }
      (.httpError 500) (by decide) rfl).2⟩

/-- C8: on every reachable page at most one element with the overlay id
is mounted, and a successful `openReader` — which removes any existing
overlay before appending the new one — leaves exactly one. -/
theorem claim_C8 : ∀ d : Dom, DomReachable d →
    countId d.elems OVERLAY_ID ≤ 1
    ∧ countId (openReader d).elems OVERLAY_ID = 1 := by
  intro d h
  have hinv := domCountInv h
  refine ⟨hinv, ?_⟩
  simp [openReader, countId_append, countId, countId_removeFirst]
  omega

/-- C8 witness: a fresh page. -/
theorem claim_C8_witness :
    countId (Dom.mk [] false).elems OVERLAY_ID ≤ 1
    ∧ countId (openReader (Dom.mk [] false)).elems OVERLAY_ID = 1 :=
  claim_C8 (Dom.mk [] false) (DomReachable.init _ rfl)

/-- C9: the claim states that a `toggle-reader` message always gets a
response (`success` with the resulting state, or a caught failure).  The
`toggleReader` of the code returns a plain object — not a promise — on its
active branch, and the listener immediately invokes `.then` on that
object, which throws a `TypeError`, so no response at all is sent when
the reader is active; the promise paths (open success and extraction
failure) respond as claimed. -/
theorem claim_C9_code_eval :
    handleToggleMsg (openReader (Dom.mk [] false)) false
      = (Dom.mk [] false, HOut.threw typeErrorMsg)
    ∧ handleToggleMsg (Dom.mk [] false) false
      = (Dom.mk [OVERLAY_ID] true, HOut.responded true (some true) none)
    ∧ handleToggleMsg (Dom.mk [] false) true
      = (Dom.mk [] false, HOut.responded false none (some extractErrMsg)) := by
  refine ⟨by decide, by decide, by decide⟩

/-- C10: on every reachable page `removeReader` is idempotent and total —
with no overlay mounted it succeeds and leaves the reader inactive, and
running it twice equals running it once — and a `close-reader` message
always answers `success := true, active := false` with the reader
inactive afterwards, whether or not it was active before. -/
theorem claim_C10 : ∀ d : Dom, DomReachable d →
    removeReader (removeReader d) = removeReader d
    ∧ isReaderActive (removeReader d) = false
    ∧ handleCloseMsg d = (removeReader d, HOut.responded true (some false) none)
    ∧ isReaderActive (handleCloseMsg d).1 = false := by
  intro d h
  have hinv := domCountInv h
  have hz : countId (removeFirst d.elems OVERLAY_ID) OVERLAY_ID = 0 := by
    rw [countId_removeFirst]; omega
  have hnm : OVERLAY_ID ∉ removeFirst d.elems OVERLAY_ID :=
    not_mem_of_countId_zero _ _ hz
  have hact : isReaderActive (removeReader d) = false := by
    simp [isReaderActive, removeReader, hnm]
  refine ⟨?_, hact, rfl, hact⟩
  simp [removeReader, removeFirst_not_mem _ _ hnm]

/-- C10 witness: a page with the reader open (and, through the first
conjunct applied to the already-closed page, without it). -/
theorem claim_C10_witness :
    removeReader (removeReader (openReader (Dom.mk [] false)))
      = removeReader (openReader (Dom.mk [] false))
    ∧ isReaderActive (removeReader (openReader (Dom.mk [] false))) = false
    ∧ handleCloseMsg (openReader (Dom.mk [] false))
      = (removeReader (openReader (Dom.mk [] false)),
         HOut.responded true (some false) none)
    ∧ isReaderActive (handleCloseMsg (openReader (Dom.mk [] false))).1 = false :=
  claim_C10 (openReader (Dom.mk [] false))
    (DomReachable.openR (DomReachable.init _ rfl))

end ReadAI
